import Mathlib

/-!
Verification of the workflow container and external-memory normalizer
(`src/program/workflow.rs`): a shallow embedding of the data model and of
`deserialize_external_memory`, the `Workflow` accessors, and the mutable
access surface, together with proofs of the documented properties.
-/

set_option autoImplicit false

namespace Ollama

/-- JSON-like structured values, mirroring `serde_json::Value`.  Numeric
content is carried opaquely as an integer payload: the code under
verification never inspects a number, it only branches on the shape. -/
inductive Json where
  | null
  | bool (b : Bool)
  | num (n : Int)
  | str (s : String)
  | arr (items : List Json)
  | obj (fields : List (String × Json))

/-- Mirrors `serde_json::Value::as_array`. -/
def Json.as_array : Json → Option (List Json)
  | .arr items => some items
  | _ => none

/-- Mirrors `serde_json::Value::as_str`. -/
def Json.as_str : Json → Option String
  | .str s => some s
  | _ => none

/-- Mirrors `serde_json::Value::is_object`. -/
def Json.is_object : Json → Bool
  | .obj _ => true
  | _ => false

/-- Mirrors `serde_json::Value::as_object`.  The object's fields are kept as
an ordered association list, matching the iteration the Rust loop performs. -/
def Json.as_object : Json → Option (List (String × Json))
  | .obj fields => some fields
  | _ => none

/-- The key type used for tasks and memory slots (`ID` in `memory/types`). -/
abbrev ID := String

/-- One atomic unit of seed memory content (`Entry` in `memory/types`):
either a raw string or an opaque structured JSON value. -/
inductive Entry where
  | String (s : String)
  | Json (value : Json)

/-- A single entry or an ordered page of entries (`MemoryInputType` in
`memory/types`). -/
inductive MemoryInputType where
  | Entry (e : Entry)
  | Page (entries : List Entry)

/-- The inner loop of `deserialize_external_memory` (workflow.rs lines
26-34): each array element that is a string is pushed as `Entry::String`,
each object as `Entry::Json`, and any other element aborts with an error. -/
def classifyItems : List Json → Except String (List Entry)
  | [] => .ok []
  | item :: rest =>
    match item.as_str with
    | some s =>
      match classifyItems rest with
      | .ok es => .ok (Entry.String s :: es)
      | .error e => .error e
    | none =>
      if item.is_object then
        match classifyItems rest with
        | .ok es => .ok (Entry.Json item :: es)
        | .error e => .error e
      else
        .error "Invalid entry format"

/-- Classification of one value sitting under an `external_memory` key
(workflow.rs lines 24-48): the array branch is tried first, then the string
branch, then the object branch; every other shape is an error. -/
def normEntryTop (val : Json) : Except String MemoryInputType :=
  match val.as_array with
  | some array =>
    match classifyItems array with
    | .ok stack_page => .ok (MemoryInputType.Page stack_page)
    | .error e => .error e
  | none =>
    match val.as_str with
    | some s => .ok (MemoryInputType.Entry (Entry.String s))
    | none =>
      if val.is_object then .ok (MemoryInputType.Entry (Entry.Json val))
      else .error "Invalid entry format"

/-- `HashMap::insert` on the association-list model of the hash map: the
binding is replaced when the key is already present, otherwise added. -/
def insertKV {α : Type} : List (ID × α) → ID → α → List (ID × α)
  | [], k, v => [(k, v)]
  | (k', v') :: rest, k, v =>
    if k' = k then (k, v) :: rest else (k', v') :: insertKV rest k v

/-- `HashMap::get` on the association-list model of the hash map. -/
def lookupKV {α : Type} : List (ID × α) → ID → Option α
  | [], _ => none
  | (k', v') :: rest, k => if k' = k then some v' else lookupKV rest k

/-- The per-key loop of `deserialize_external_memory` (workflow.rs lines
23-49): classify each value and insert the result under its key, aborting
the whole conversion on the first failure. -/
def normalizePairs : List (ID × Json) → List (ID × MemoryInputType) →
    Except String (List (ID × MemoryInputType))
  | [], acc => .ok acc
  | (key, val) :: rest, acc =>
    match normEntryTop val with
    | .ok mv => normalizePairs rest (insertKV acc key mv)
    | .error e => .error e

/-- `deserialize_external_memory` (workflow.rs lines 8-55), applied to the
already-decoded optional JSON value: `none` passes through, a non-object
value is the error `Expected a map`, and an object is normalized key by
key. -/
def deserialize_external_memory (value : Option Json) :
    Except String (Option (List (ID × MemoryInputType))) :=
  match value with
  | some value =>
    match value.as_object with
    | some map =>
      match normalizePairs map [] with
      | .ok external_memory => .ok (some external_memory)
      | .error e => .error e
    | none => .error "Expected a map"
  | none => .ok none

/-- Whether the `external_memory` key is present in the document, and with
which raw value. -/
inductive FieldState where
  | absent
  | present (v : Json)

/-- Models `Option::<Value>::deserialize` on a present JSON value
(workflow.rs line 14): JSON `null` deserializes to `None`, any other value
to `Some`. -/
def optionOfJson : Json → Option Json
  | .null => none
  | v => some v

/-- The full field-level behaviour of the `external_memory` field
(workflow.rs lines 61-62): an absent key yields the serde default `None`
without invoking the deserializer, a present value goes through
`Option::deserialize` and then `deserialize_external_memory`. -/
def external_memory_field : FieldState →
    Except String (Option (List (ID × MemoryInputType)))
  | FieldState.absent => .ok none
  | FieldState.present v => deserialize_external_memory (optionOfJson v)

/-- Modelled from the spec: `Task` (defined in `super::atomics`, which is
not part of this core) is opaque beyond its `id : ID` field; the remaining
fields are carried as one opaque payload. -/
structure Task where
  id : ID
  payload : Json

/-- Modelled from the spec: `Edge` is opaque beyond its `source : ID`
field. -/
structure Edge where
  source : ID
  payload : Json

/-- Modelled from the spec: `Config` is an opaque decodable type. -/
abbrev Config := Json

/-- Modelled from the spec: `TaskOutput` is an opaque decodable type. -/
abbrev TaskOutput := Json

/-- The `Workflow` container (workflow.rs lines 58-66). -/
structure Workflow where
  config : Config
  external_memory : Option (List (ID × MemoryInputType))
  tasks : List Task
  steps : List Edge
  return_value : TaskOutput

/-- `Workflow::new` (workflow.rs lines 69-83): plain construction, no
validation. -/
def Workflow.new (tasks : List Task) (steps : List Edge) (config : Config)
    (external_memory : Option (List (ID × MemoryInputType)))
    (return_value : TaskOutput) : Workflow :=
  { config := config, external_memory := external_memory, tasks := tasks,
    steps := steps, return_value := return_value }

/-- `Workflow::get_config` (workflow.rs line 96). -/
def Workflow.get_config (w : Workflow) : Config := w.config

/-- `Workflow::get_tasks` (workflow.rs line 100). -/
def Workflow.get_tasks (w : Workflow) : List Task := w.tasks

/-- `Workflow::get_workflow` (workflow.rs line 108): the steps sequence. -/
def Workflow.get_workflow (w : Workflow) : List Edge := w.steps

/-- `Workflow::get_return_value` (workflow.rs line 112). -/
def Workflow.get_return_value (w : Workflow) : TaskOutput := w.return_value

/-- `Workflow::get_step` (workflow.rs lines 116-118): positional lookup via
`Vec::get`. -/
def Workflow.get_step (w : Workflow) (index : Nat) : Option Edge :=
  w.steps.get? index

/-- `Workflow::get_step_by_id` (workflow.rs lines 120-122): first edge whose
`source` equals the query. -/
def Workflow.get_step_by_id (w : Workflow) (task_id : ID) : Option Edge :=
  w.steps.find? (fun edge => edge.source == task_id)

/-- `Workflow::get_tasks_by_id` (workflow.rs lines 124-126): first task
whose `id` equals the query. -/
def Workflow.get_tasks_by_id (w : Workflow) (task_id : ID) : Option Task :=
  w.tasks.find? (fun task => task.id == task_id)

/-- Models a write through `Workflow::get_tasks_mut` (workflow.rs lines
104-106): the caller holds `&mut Vec<Task>` and may replace the task
sequence; no other field is reachable through that reference. -/
def Workflow.set_tasks (w : Workflow) (tasks : List Task) : Workflow :=
  { w with tasks := tasks }

/-- The in-place update performed through `get_tasks_by_id_mut`: the first
task whose `id` matches is rewritten, everything else is untouched. -/
def updateFirstTask : List Task → ID → (Task → Task) → List Task
  | [], _, _ => []
  | task :: rest, task_id, f =>
    if task.id == task_id then f task :: rest
    else task :: updateFirstTask rest task_id f

/-- Models a write through `Workflow::get_tasks_by_id_mut` (workflow.rs
lines 128-130). -/
def Workflow.modify_task_by_id (w : Workflow) (task_id : ID)
    (f : Task → Task) : Workflow :=
  { w with tasks := updateFirstTask w.tasks task_id f }

/-- Models a direct assignment through the `external_memory` field, which
workflow.rs line 62 declares `pub` — unlike every other `Workflow` field. -/
def Workflow.set_external_memory (w : Workflow)
    (em : Option (List (ID × MemoryInputType))) : Workflow :=
  { w with external_memory := em }

/-- Shape predicate for the scalar values every branch of the normalizer
rejects: numbers, booleans and null. -/
def isScalar : Json → Bool
  | .null => true
  | .bool _ => true
  | .num _ => true
  | _ => false

/-- Shape predicate for valid array elements: strings and objects. -/
def isStrOrObj : Json → Bool
  | .str _ => true
  | .obj _ => true
  | _ => false

/-- The element-wise image of a valid array element: a string becomes
`Entry::String`, anything else (an object, under the validity guard)
becomes `Entry::Json`. -/
def elemImage : Json → Entry
  | .str s => Entry.String s
  | j => Entry.Json j

/-! Helper lemmas about the association-list model of the hash map. -/

/-- Looking up the key just inserted yields the inserted value. -/
theorem lookupKV_insertKV_self {α : Type} (m : List (ID × α)) (k : ID)
    (v : α) : lookupKV (insertKV m k v) k = some v := by
  induction m with
  | nil => simp [insertKV, lookupKV]
  | cons p rest ih =>
    obtain ⟨k', v'⟩ := p
    by_cases h : k' = k
    · subst h
      simp [insertKV, lookupKV]
    · simp [insertKV, h, lookupKV, ih]

/-- Inserting under one key does not change lookups at a different key. -/
theorem lookupKV_insertKV_ne {α : Type} (m : List (ID × α)) (k : ID)
    (v : α) (k₂ : ID) (h : k ≠ k₂) :
    lookupKV (insertKV m k v) k₂ = lookupKV m k₂ := by
  induction m with
  | nil => simp [insertKV, lookupKV, h]
  | cons p rest ih =>
    obtain ⟨k', v'⟩ := p
    by_cases hk : k' = k
    · subst hk
      simp [insertKV, lookupKV, h]
    · by_cases hk₂ : k' = k₂
      · subst hk₂
        simp [insertKV, hk, lookupKV]
      · simp [insertKV, hk, lookupKV, hk₂, ih]

/-- Keys not mentioned by the remaining input are untouched by the loop. -/
theorem normalizePairs_lookup_stable (m : List (ID × Json)) :
    ∀ acc res, normalizePairs m acc = .ok res →
    ∀ k, k ∉ m.map Prod.fst → lookupKV res k = lookupKV acc k := by
  induction m with
  | nil =>
    intro acc res h k _
    simp [normalizePairs] at h
    rw [h]
  | cons p rest ih =>
    obtain ⟨key, val⟩ := p
    intro acc res h k hk
    simp only [List.map_cons, List.mem_cons, not_or] at hk
    cases hnv : normEntryTop val with
    | error e =>
      rw [normalizePairs, hnv] at h
      exact absurd h (by simp)
    | ok mv =>
      rw [normalizePairs, hnv] at h
      rw [ih _ _ h k hk.2]
      exact lookupKV_insertKV_ne acc key mv k (fun he => hk.1 he.symm)

/-- On success, the value stored under a key of the input (assuming the
input's keys are distinct) is exactly the classification of that key's
value; in particular the classification succeeded. -/
theorem normalizePairs_lookup_mem (m : List (ID × Json)) :
    ∀ acc res k v, (k, v) ∈ m → (m.map Prod.fst).Nodup →
    normalizePairs m acc = .ok res →
    ∃ mv, normEntryTop v = .ok mv ∧ lookupKV res k = some mv := by
  induction m with
  | nil =>
    intro acc res k v hmem _ _
    exact absurd hmem (by simp)
  | cons p rest ih =>
    obtain ⟨key, val⟩ := p
    intro acc res k v hmem hnodup h
    simp only [List.map_cons, List.nodup_cons] at hnodup
    rcases List.mem_cons.mp hmem with heq | htail
    · obtain ⟨hk, hv⟩ := Prod.mk.injEq .. ▸ heq
      subst hk
      subst hv
      cases hnv : normEntryTop v with
      | error e =>
        rw [normalizePairs, hnv] at h
        exact absurd h (by simp)
      | ok mv =>
        rw [normalizePairs, hnv] at h
        refine ⟨mv, rfl, ?_⟩
        rw [normalizePairs_lookup_stable rest _ _ h k hnodup.1]
        exact lookupKV_insertKV_self acc k mv
    · cases hnv : normEntryTop val with
      | error e =>
        rw [normalizePairs, hnv] at h
        exact absurd h (by simp)
      | ok mv =>
        rw [normalizePairs, hnv] at h
        exact ih _ _ k v htail hnodup.2 h

/-- If the classification of any key's value fails, the whole loop fails. -/
theorem normalizePairs_error_mem (m : List (ID × Json)) :
    ∀ acc k v e, (k, v) ∈ m → normEntryTop v = .error e →
    ∃ e₂, normalizePairs m acc = .error e₂ := by
  induction m with
  | nil =>
    intro acc k v e hmem _
    exact absurd hmem (by simp)
  | cons p rest ih =>
    obtain ⟨key, val⟩ := p
    intro acc k v e hmem hbad
    rcases List.mem_cons.mp hmem with heq | htail
    · obtain ⟨hk, hv⟩ := Prod.mk.injEq .. ▸ heq
      subst hv
      rw [normalizePairs, hbad]
      exact ⟨e, rfl⟩
    · cases hnv : normEntryTop val with
      | error e₃ =>
        rw [normalizePairs, hnv]
        exact ⟨e₃, rfl⟩
      | ok mv =>
        rw [normalizePairs, hnv]
        exact ih _ k v e htail hbad

/-! Helper lemmas about the element-wise classification. -/

/-- A successful run of the inner loop is exactly the element-wise image of
the array, and certifies every element was a string or an object. -/
theorem classifyItems_ok_shape :
    ∀ items es, classifyItems items = .ok es →
    es = items.map elemImage ∧ ∀ x ∈ items, isStrOrObj x = true := by
  intro items
  induction items with
  | nil =>
    intro es h
    simp [classifyItems] at h
    simp [h.symm]
  | cons item rest ih =>
    intro es h
    cases item with
    | str s =>
      rw [classifyItems] at h
      cases hr : classifyItems rest with
      | error e =>
        rw [hr] at h
        simp [Json.as_str] at h
      | ok es₂ =>
        rw [hr] at h
        simp only [Json.as_str] at h
        obtain ⟨hshape, hall⟩ := ih es₂ hr
        cases h
        refine ⟨by simp [elemImage, hshape], ?_⟩
        intro x hx
        rcases List.mem_cons.mp hx with hx | hx
        · subst hx
          rfl
        · exact hall x hx
    | obj fields =>
      rw [classifyItems] at h
      cases hr : classifyItems rest with
      | error e =>
        rw [hr] at h
        simp [Json.as_str, Json.is_object] at h
      | ok es₂ =>
        rw [hr] at h
        simp only [Json.as_str, Json.is_object, if_pos] at h
        obtain ⟨hshape, hall⟩ := ih es₂ hr
        cases h
        refine ⟨by simp [elemImage, hshape], ?_⟩
        intro x hx
        rcases List.mem_cons.mp hx with hx | hx
        · subst hx
          rfl
        · exact hall x hx
    | null => simp [classifyItems, Json.as_str, Json.is_object] at h
    | bool b => simp [classifyItems, Json.as_str, Json.is_object] at h
    | num n => simp [classifyItems, Json.as_str, Json.is_object] at h
    | arr xs => simp [classifyItems, Json.as_str, Json.is_object] at h

/-- When every element is a string or an object, the inner loop succeeds
with the element-wise image, in order. -/
theorem classifyItems_all_ok (items : List Json)
    (h : ∀ x ∈ items, isStrOrObj x = true) :
    classifyItems items = .ok (items.map elemImage) := by
  induction items with
  | nil => rfl
  | cons item rest ih =>
    have hrest : classifyItems rest = .ok (rest.map elemImage) :=
      ih (fun x hx => h x (List.mem_cons_of_mem item hx))
    have hitem : isStrOrObj item = true := h item (List.mem_cons_self item rest)
    cases item with
    | str s => rw [classifyItems, hrest]; rfl
    | obj fields => rw [classifyItems, hrest]; rfl
    | null => simp [isStrOrObj] at hitem
    | bool b => simp [isStrOrObj] at hitem
    | num n => simp [isStrOrObj] at hitem
    | arr xs => simp [isStrOrObj] at hitem

/-- Any element that is neither a string nor an object makes the inner loop
fail. -/
theorem classifyItems_bad (items : List Json) :
    ∀ x ∈ items, isStrOrObj x = false →
    ∃ e, classifyItems items = .error e := by
  induction items with
  | nil =>
    intro x hx
    exact absurd hx (by simp)
  | cons item rest ih =>
    intro x hx hbad
    rcases List.mem_cons.mp hx with hx | hx
    · subst hx
      cases x with
      | null => exact ⟨"Invalid entry format", by rw [classifyItems]; rfl⟩
      | bool b => exact ⟨"Invalid entry format", by rw [classifyItems]; rfl⟩
      | num n => exact ⟨"Invalid entry format", by rw [classifyItems]; rfl⟩
      | arr xs => exact ⟨"Invalid entry format", by rw [classifyItems]; rfl⟩
      | str s => simp [isStrOrObj] at hbad
      | obj fields => simp [isStrOrObj] at hbad
    · obtain ⟨e, he⟩ := ih x hx hbad
      cases item with
      | str s => exact ⟨e, by rw [classifyItems, he]; rfl⟩
      | obj fields => exact ⟨e, by rw [classifyItems, he]; rfl⟩
      | null => exact ⟨"Invalid entry format", by rw [classifyItems]; rfl⟩
      | bool b => exact ⟨"Invalid entry format", by rw [classifyItems]; rfl⟩
      | num n => exact ⟨"Invalid entry format", by rw [classifyItems]; rfl⟩
      | arr xs => exact ⟨"Invalid entry format", by rw [classifyItems]; rfl⟩

/-- The normalizer rejects every scalar value (number, boolean, null). -/
theorem normEntryTop_scalar (v : Json) (h : isScalar v = true) :
    normEntryTop v = .error "Invalid entry format" := by
  cases v with
  | null => rfl
  | bool b => rfl
  | num n => rfl
  | str s => simp [isScalar] at h
  | arr items => simp [isScalar] at h
  | obj fields => simp [isScalar] at h

/-- Unfolding of the deserializer on an object value: the result is the
result of the per-key loop, wrapped in `Some` on success. -/
theorem deserialize_obj_eq (m : List (ID × Json)) :
    deserialize_external_memory (some (Json.obj m)) =
      match normalizePairs m [] with
      | .ok em => .ok (some em)
      | .error e => .error e := rfl

/-- On an object value, success of the deserializer comes exactly from
success of the per-key loop. -/
theorem deserialize_obj_ok (m : List (ID × Json))
    (em : List (ID × MemoryInputType))
    (h : deserialize_external_memory (some (Json.obj m)) = .ok (some em)) :
    normalizePairs m [] = .ok em := by
  rw [deserialize_obj_eq] at h
  cases hn : normalizePairs m [] with
  | ok em₂ =>
    rw [hn] at h
    cases h
    rfl
  | error e =>
    rw [hn] at h
    exact absurd h (by simp)

/-- A failing per-key loop makes the deserializer fail on an object. -/
theorem deserialize_obj_error (m : List (ID × Json)) (e : String)
    (h : normalizePairs m [] = .error e) :
    deserialize_external_memory (some (Json.obj m)) = .error e := by
  rw [deserialize_obj_eq, h]

/-! The claims. -/

/-- Claim C1: for every key of a present `external_memory` object, the
normalizer classifies the value by shape — a string value is stored as
`MemoryInputType::Entry(Entry::String(...))`, an object value as
`MemoryInputType::Entry(Entry::Json(...))`, an array value as
`MemoryInputType::Page(...)`, and any other top-level shape (number,
boolean, null) makes the whole normalization return an error. -/
theorem external_memory_classifies_each_key
    (m : List (ID × Json)) (k : ID) (v : Json)
    (hmem : (k, v) ∈ m) (hnodup : (m.map Prod.fst).Nodup) :
    (∀ s, v = Json.str s →
      ∀ em, deserialize_external_memory (some (Json.obj m)) = .ok (some em) →
        lookupKV em k = some (MemoryInputType.Entry (Entry.String s)))
    ∧ (∀ fields, v = Json.obj fields →
      ∀ em, deserialize_external_memory (some (Json.obj m)) = .ok (some em) →
        lookupKV em k = some (MemoryInputType.Entry (Entry.Json v)))
    ∧ (∀ items, v = Json.arr items →
      ∀ em, deserialize_external_memory (some (Json.obj m)) = .ok (some em) →
        ∃ es, lookupKV em k = some (MemoryInputType.Page es))
    ∧ (isScalar v = true →
      ∃ e, deserialize_external_memory (some (Json.obj m)) = .error e) := by
  refine ⟨?_, ?_, ?_, ?_⟩
  · intro s hs em hok
    obtain ⟨mv, hmv, hlook⟩ := normalizePairs_lookup_mem m [] em k v hmem
      hnodup (deserialize_obj_ok m em hok)
    subst hs
    rw [show normEntryTop (Json.str s)
        = .ok (MemoryInputType.Entry (Entry.String s)) from rfl] at hmv
    cases hmv
    exact hlook
  · intro fields hf em hok
    obtain ⟨mv, hmv, hlook⟩ := normalizePairs_lookup_mem m [] em k v hmem
      hnodup (deserialize_obj_ok m em hok)
    subst hf
    rw [show normEntryTop (Json.obj fields)
        = .ok (MemoryInputType.Entry (Entry.Json (Json.obj fields))) from rfl] at hmv
    cases hmv
    exact hlook
  · intro items hi em hok
    obtain ⟨mv, hmv, hlook⟩ := normalizePairs_lookup_mem m [] em k v hmem
      hnodup (deserialize_obj_ok m em hok)
    subst hi
    rw [normEntryTop] at hmv
    simp only [Json.as_array] at hmv
    cases hc : classifyItems items with
    | ok es =>
      rw [hc] at hmv
      cases hmv
      exact ⟨es, hlook⟩
    | error e =>
      rw [hc] at hmv
      exact absurd hmv (by simp)
  · intro hscalar
    obtain ⟨e₂, he₂⟩ := normalizePairs_error_mem m [] k v
      "Invalid entry format" hmem (normEntryTop_scalar v hscalar)
    exact ⟨e₂, deserialize_obj_error m e₂ he₂⟩

/-- Closed instantiation of the classification theorem on the object
`\x7b"m1": "hello", "m2": \x7b"a": 1\x7d, "m3": ["x"]\x7d`. -/
theorem external_memory_classifies_each_key_apply :
    lookupKV [("m1", MemoryInputType.Entry (Entry.String "hello")),
        ("m2", MemoryInputType.Entry (Entry.Json (Json.obj [("a", Json.num 1)]))),
        ("m3", MemoryInputType.Page [Entry.String "x"])] "m1"
      = some (MemoryInputType.Entry (Entry.String "hello")) :=
  (external_memory_classifies_each_key
      [("m1", Json.str "hello"), ("m2", Json.obj [("a", Json.num 1)]),
        ("m3", Json.arr [Json.str "x"])]
      "m1" (Json.str "hello") (List.mem_cons_self _ _) (by decide)).1
    "hello" rfl
    [("m1", MemoryInputType.Entry (Entry.String "hello")),
      ("m2", MemoryInputType.Entry (Entry.Json (Json.obj [("a", Json.num 1)]))),
      ("m3", MemoryInputType.Page [Entry.String "x"])] rfl

/-- Claim C2: normalization of `external_memory` is atomic — whenever some
key's value is invalid (a scalar, or an array containing an element that is
neither a string nor an object), the whole normalization returns an error;
the `Except` result means no partial map can be produced. -/
theorem external_memory_atomic_failure
    (m : List (ID × Json)) (k : ID) (v : Json) (hmem : (k, v) ∈ m)
    (hbad : isScalar v = true
      ∨ ∃ items x, v = Json.arr items ∧ x ∈ items ∧ isStrOrObj x = false) :
    ∃ e, deserialize_external_memory (some (Json.obj m)) = .error e := by
  have hfail : ∃ e₀, normEntryTop v = .error e₀ := by
    rcases hbad with hscalar | ⟨items, x, hv, hx, hxbad⟩
    · exact ⟨"Invalid entry format", normEntryTop_scalar v hscalar⟩
    · obtain ⟨e₀, he₀⟩ := classifyItems_bad items x hx hxbad
      subst hv
      refine ⟨e₀, ?_⟩
      rw [normEntryTop]
      simp only [Json.as_array]
      rw [he₀]
  obtain ⟨e₀, he₀⟩ := hfail
  obtain ⟨e₂, he₂⟩ := normalizePairs_error_mem m [] k v e₀ hmem he₀
  exact ⟨e₂, deserialize_obj_error m e₂ he₂⟩

/-- Closed instantiation of atomicity on `\x7b"a": "x", "b": 42\x7d`. -/
theorem external_memory_atomic_failure_apply :
    ∃ e, deserialize_external_memory
        (some (Json.obj [("a", Json.str "x"), ("b", Json.num 42)]))
      = Except.error e :=
  external_memory_atomic_failure
    [("a", Json.str "x"), ("b", Json.num 42)] "b" (Json.num 42)
    (by simp) (Or.inl rfl)

/-- Claim C5: an array value whose elements are all strings or objects is
normalized to a `Page` holding the element-wise images (string element to
`Entry::String`, object element to `Entry::Json`) in exactly the source
array order; an array with any other element shape is an error. -/
theorem page_elementwise_in_order (items : List Json) :
    ((∀ x ∈ items, isStrOrObj x = true) →
      normEntryTop (Json.arr items)
        = .ok (MemoryInputType.Page (items.map elemImage)))
    ∧ (∀ x ∈ items, isStrOrObj x = false →
      ∃ e, normEntryTop (Json.arr items) = .error e) := by
  constructor
  · intro hall
    rw [normEntryTop]
    simp only [Json.as_array]
    rw [classifyItems_all_ok items hall]
  · intro x hx hbad
    obtain ⟨e, he⟩ := classifyItems_bad items x hx hbad
    refine ⟨e, ?_⟩
    rw [normEntryTop]
    simp only [Json.as_array]
    rw [he]

/-- Closed instantiation of page normalization on `["a", \x7b\x7d]`. -/
theorem page_elementwise_in_order_apply :
    normEntryTop (Json.arr [Json.str "a", Json.obj []])
      = Except.ok (MemoryInputType.Page
          [Entry.String "a", Entry.Json (Json.obj [])]) :=
  (page_elementwise_in_order [Json.str "a", Json.obj []]).1 (by
    intro x hx
    rcases List.mem_cons.mp hx with h | h
    · subst h; rfl
    · rcases List.mem_cons.mp h with h | h
      · subst h; rfl
      · exact absurd h (by simp))

/-- Claim C7: an accepted string value is carried verbatim into
`Entry::String`, both at the top level of a key and as an array element
(the entry at position `i` of the page is exactly the string at position
`i` of the array). -/
theorem string_values_verbatim (s : String) :
    normEntryTop (Json.str s)
      = .ok (MemoryInputType.Entry (Entry.String s))
    ∧ ∀ items es, classifyItems items = .ok es →
      ∀ i (h₁ : i < items.length) (h₂ : i < es.length),
        items.get ⟨i, h₁⟩ = Json.str s →
        es.get ⟨i, h₂⟩ = Entry.String s := by
  constructor
  · rfl
  · intro items es hok i h₁ h₂ hstr
    obtain ⟨hshape, _⟩ := classifyItems_ok_shape items es hok
    subst hshape
    simp only [List.get_eq_getElem] at hstr ⊢
    rw [List.getElem_map, hstr]
    rfl

/-- Closed instantiation of verbatim strings at `"hi"`. -/
theorem string_values_verbatim_apply :
    List.get [Entry.String "hi"] ⟨0, by decide⟩ = Entry.String "hi" :=
  (string_values_verbatim "hi").2 [Json.str "hi"] [Entry.String "hi"] rfl
    0 (by decide) (by decide) rfl

/-- Claim C6: a document without the `external_memory` key loads with the
field equal to `None` — not an empty map and not an error. -/
theorem absent_field_is_none :
    external_memory_field FieldState.absent = Except.ok none := rfl

/-- Claim C10: an `external_memory` key that is present with value JSON
`null` normalizes to `None`, exactly as when the key is absent. -/
theorem null_field_is_none :
    external_memory_field (FieldState.present Json.null) = Except.ok none
    ∧ external_memory_field (FieldState.present Json.null)
      = external_memory_field FieldState.absent :=
  ⟨rfl, rfl⟩

/-- `Iterator::find` returns the first element satisfying the predicate:
all elements before the match fail the predicate. -/
theorem find_first_match {α : Type} (p : α → Bool) :
    ∀ pre (t : α) post, (∀ x ∈ pre, p x = false) → p t = true →
    List.find? p (pre ++ t :: post) = some t := by
  intro pre
  induction pre with
  | nil =>
    intro t post _ hp
    rw [List.nil_append]
    exact List.find?_cons_of_pos _ hp
  | cons a rest ih =>
    intro t post hall hp
    have ha : p a = false := hall a (List.mem_cons_self a rest)
    rw [List.cons_append, List.find?_cons_of_neg _ (by simp [ha])]
    exact ih t post (fun x hx => hall x (List.mem_cons_of_mem a hx)) hp

/-- Claim C4: id lookup returns the first task (in stored order) whose `id`
equals the query, and `none` when no task matches; analogously, source-id
lookup returns the first edge whose `source` equals the query, and `none`
when none matches — also when several edges share the source id. -/
theorem lookup_first_match (w : Workflow) (q : ID) :
    (∀ pre t post, w.tasks = pre ++ t :: post → t.id = q →
      (∀ t₂ ∈ pre, t₂.id ≠ q) → w.get_tasks_by_id q = some t)
    ∧ ((∀ t ∈ w.tasks, t.id ≠ q) → w.get_tasks_by_id q = none)
    ∧ (∀ pre e post, w.steps = pre ++ e :: post → e.source = q →
      (∀ e₂ ∈ pre, e₂.source ≠ q) → w.get_step_by_id q = some e)
    ∧ ((∀ e ∈ w.steps, e.source ≠ q) → w.get_step_by_id q = none) := by
  refine ⟨?_, ?_, ?_, ?_⟩
  · intro pre t post hsplit hid hpre
    rw [Workflow.get_tasks_by_id, hsplit]
    exact find_first_match _ pre t post
      (fun x hx => by simpa using hpre x hx) (by simpa using hid)
  · intro hnone
    rw [Workflow.get_tasks_by_id]
    rw [List.find?_eq_none]
    intro t ht
    simpa using hnone t ht
  · intro pre e post hsplit hsrc hpre
    rw [Workflow.get_step_by_id, hsplit]
    exact find_first_match _ pre e post
      (fun x hx => by simpa using hpre x hx) (by simpa using hsrc)
  · intro hnone
    rw [Workflow.get_step_by_id]
    rw [List.find?_eq_none]
    intro e he
    simpa using hnone e he

/-- A concrete workflow used to instantiate the lookup and mutation
properties: three tasks (two sharing the id `t2`) and two edges sharing the
source `t1`. -/
def sampleWorkflow : Workflow :=
  { config := Json.null
    external_memory := none
    tasks := [{ id := "t1", payload := Json.null },
      { id := "t2", payload := Json.null },
      { id := "t2", payload := Json.bool true }]
    steps := [{ source := "t1", payload := Json.null },
      { source := "t1", payload := Json.bool true }]
    return_value := Json.null }

/-- Closed instantiation of first-match lookup on the sample workflow:
`t2` finds the second task, `t1` finds the first of the two edges. -/
theorem lookup_first_match_apply :
    Workflow.get_tasks_by_id sampleWorkflow "t2"
        = some { id := "t2", payload := Json.null }
    ∧ Workflow.get_step_by_id sampleWorkflow "t1"
        = some { source := "t1", payload := Json.null } := by
  constructor
  · exact (lookup_first_match sampleWorkflow "t2").1
      [{ id := "t1", payload := Json.null }]
      { id := "t2", payload := Json.null }
      [{ id := "t2", payload := Json.bool true }] rfl rfl (by
        intro t ht
        rcases List.mem_singleton.mp ht with rfl
        decide)
  · exact (lookup_first_match sampleWorkflow "t1").2.2.1
      [] { source := "t1", payload := Json.null }
      [{ source := "t1", payload := Json.bool true }] rfl rfl (by
        intro e he
        exact absurd he (by simp))

/-- Claim C9: positional step lookup returns the edge at the index when the
index is in range, and `none` for every out-of-range index. -/
theorem positional_step_lookup (w : Workflow) (index : Nat) :
    (∀ h : index < w.steps.length,
      w.get_step index = some (w.steps.get ⟨index, h⟩))
    ∧ (w.steps.length ≤ index → w.get_step index = none) := by
  constructor
  · intro h
    rw [Workflow.get_step]
    exact List.get?_eq_get h
  · intro h
    rw [Workflow.get_step]
    exact List.get?_eq_none.mpr h

/-- Closed instantiation of positional lookup on the sample workflow:
index 0 is in range, index 5 is out of range. -/
theorem positional_step_lookup_apply :
    Workflow.get_step sampleWorkflow 0
        = some (sampleWorkflow.steps.get ⟨0, by decide⟩)
    ∧ Workflow.get_step sampleWorkflow 5 = none :=
  ⟨(positional_step_lookup sampleWorkflow 0).1 (by decide),
    (positional_step_lookup sampleWorkflow 5).2 (by decide)⟩

/-- Claim C3 fails as stated: `external_memory` is declared `pub`
(workflow.rs line 62), so direct assignment through the field is exposed
and does mutate `external_memory` — here shown on a concrete workflow whose
memory changes from `none` to a one-entry map. -/
theorem external_memory_mutation_exposed :
    (Workflow.set_external_memory sampleWorkflow
        (some [("m1", MemoryInputType.Entry (Entry.String "x"))])).external_memory
      ≠ sampleWorkflow.external_memory := by
  intro h
  exact Option.noConfusion h

/-- Claim C3 (amended): after construction, the exposed methods mutate only
the task sequence — replacing the tasks or updating one task by id leaves
`config`, `steps`, `external_memory` and `return_value` unchanged — and the
only further exposed mutation is direct assignment of the public
`external_memory` field, which leaves `config`, `steps`, `tasks` and
`return_value` unchanged; no exposed operation mutates `config`, `steps`
or `return_value`. -/
theorem mutation_surface_after_construction (w : Workflow) (ts : List Task)
    (task_id : ID) (f : Task → Task)
    (em : Option (List (ID × MemoryInputType))) :
    ((w.set_tasks ts).config = w.config
      ∧ (w.set_tasks ts).steps = w.steps
      ∧ (w.set_tasks ts).external_memory = w.external_memory
      ∧ (w.set_tasks ts).return_value = w.return_value)
    ∧ ((w.modify_task_by_id task_id f).config = w.config
      ∧ (w.modify_task_by_id task_id f).steps = w.steps
      ∧ (w.modify_task_by_id task_id f).external_memory = w.external_memory
      ∧ (w.modify_task_by_id task_id f).return_value = w.return_value)
    ∧ ((w.set_external_memory em).config = w.config
      ∧ (w.set_external_memory em).steps = w.steps
      ∧ (w.set_external_memory em).tasks = w.tasks
      ∧ (w.set_external_memory em).return_value = w.return_value) :=
  ⟨⟨rfl, rfl, rfl, rfl⟩, ⟨rfl, rfl, rfl, rfl⟩, ⟨rfl, rfl, rfl, rfl⟩⟩

/-- Claim C8: mutating the tasks through the mutable accessors — replacing
the sequence (`get_tasks_mut`) or rewriting the first id match
(`get_tasks_by_id_mut`) — leaves `steps`, `config`, `external_memory` and
`return_value` unchanged. -/
theorem task_mutation_isolated (w : Workflow) (ts : List Task)
    (task_id : ID) (f : Task → Task) :
    ((w.set_tasks ts).steps = w.steps
      ∧ (w.set_tasks ts).config = w.config
      ∧ (w.set_tasks ts).external_memory = w.external_memory
      ∧ (w.set_tasks ts).return_value = w.return_value)
    ∧ ((w.modify_task_by_id task_id f).steps = w.steps
      ∧ (w.modify_task_by_id task_id f).config = w.config
      ∧ (w.modify_task_by_id task_id f).external_memory = w.external_memory
      ∧ (w.modify_task_by_id task_id f).return_value = w.return_value) :=
  ⟨⟨rfl, rfl, rfl, rfl⟩, ⟨rfl, rfl, rfl, rfl⟩⟩

end Ollama
